import Mathlib

/-!
Verification of the polymarket-kalshi-weather-bot trading core.

Shallow embedding of the Python sources under src/backend into Lean 4.
Python floats are modelled as rationals, datetimes as rational unix
seconds, and database tables as lists of records.  Each definition is
translated from the named source function; definitions written from the
specification text (because the source under src/ lacks them) carry a
doc comment starting with the words "Modelled from the spec".
-/

namespace TradingBot
/-- A persisted trade record.  Fields follow the Trade ORM model as used by
src/backend/core/settlement.py and src/backend/core/scheduler.py (the ORM
module backend/models/database.py is imported by the sources but is not
present under src/; the fields are those the settlement code reads and
writes).  Monetary amounts and prices are rationals; result is the string
"pending", "win", "loss" or "push". -/
structure Trade where
  market_ticker : String
  direction : String
  entry_price : ℚ
  size : ℚ
  settled : Bool
  settlement_value : Option ℚ
  pnl : Option ℚ
  result : String
  settlement_time : Option ℚ
  deriving DecidableEq, Repr

/-- The singleton bot state row.  Fields follow the BotState usage in
src/backend/core/settlement.py and scheduler.py. -/
structure BotState where
  bankroll : ℚ
  total_pnl : ℚ
  winning_trades : ℕ
  total_trades : ℕ
  is_running : Bool
  deriving DecidableEq, Repr

/-- Round a rational to cents, ties to even: the model of the Python
builtin round(x, 2) used at the end of calculate_pnl (Python rounds
half to even; binary float representation noise is not modelled). -/
def round2 (x : ℚ) : ℚ :=
  let y : ℚ := x * 100
  let f : ℤ := ⌊y⌋
  let r : ℚ := y - f
  let n : ℤ :=
    if r < 1/2 then f
    else if r > 1/2 then f + 1
    else if f % 2 = 0 then f else f + 1
  (n : ℚ) / 100

/-- From src/backend/core/settlement.py, calculate_pnl.  Note the source
special-cases only the direction string "yes"; every other direction
(including "up") falls into the NO-position branch. -/
def calculate_pnl (trade : Trade) (settlement_value : ℚ) : ℚ :=
  let pnl : ℚ :=
    if trade.direction = "yes" then
      if settlement_value = 1 then
        trade.size * (1 - trade.entry_price)
      else
        -trade.size * trade.entry_price
    else
      if settlement_value = 0 then
        trade.size * (1 - trade.entry_price)
      else
        -trade.size * trade.entry_price
  round2 pnl

/-- The result string assignment inside settle_pending_trades
(src/backend/core/settlement.py): "win" when pnl is positive, "loss" when
negative, otherwise "push". -/
def result_string (pnl : ℚ) : String :=
  if pnl > 0 then "win" else if pnl < 0 then "loss" else "push"

/-- One trade processed by settle_pending_trades.  The venue-and-clock
outcome decision of check_market_settlement is abstracted as an oracle
giving the settlement value of a trade when the market has resolved;
the updates to the trade record are transcribed from the source. -/
def settle_step (oracle : Trade → Option ℚ) (now : ℚ) (t : Trade) : Trade :=
  if t.settled then t
  else
    match oracle t with
    | none => t
    | some sv =>
        let p := calculate_pnl t sv
        { t with
          settled := true
          settlement_value := some sv
          pnl := some p
          settlement_time := some now
          result := result_string p }

/-- From src/backend/core/settlement.py, settle_pending_trades: all trades
with settled = False are examined; those whose market has resolved are
updated in place and collected.  Returns the updated table and the list of
newly settled trades. -/
def settle_pending_trades (oracle : Trade → Option ℚ) (now : ℚ)
    (trades : List Trade) : List Trade × List Trade :=
  (trades.map (settle_step oracle now),
   (trades.filter (fun t => !t.settled && (oracle t).isSome)).map
     (settle_step oracle now))

/-- The body of the update loop in update_bot_state_with_settlements
(src/backend/core/settlement.py): when the trade has a recorded pnl, add
it to total_pnl and bankroll, and increment winning_trades when the
result is "win". -/
def apply_settlement (st : BotState) (t : Trade) : BotState :=
  match t.pnl with
  | none => st
  | some p =>
      { st with
        total_pnl := st.total_pnl + p
        bankroll := st.bankroll + p
        winning_trades :=
          st.winning_trades + (if t.result = "win" then 1 else 0) }

/-- From src/backend/core/settlement.py, update_bot_state_with_settlements:
fold the update loop body over the batch of settled trades. -/
def update_bot_state_with_settlements (state : BotState)
    (settled_trades : List Trade) : BotState :=
  settled_trades.foldl apply_settlement state

/-- From src/backend/core/scheduler.py, settlement_job: settle the pending
trades, then post the newly settled batch to the bot state. -/
def settlement_job (oracle : Trade → Option ℚ) (now : ℚ)
    (x : List Trade × BotState) : List Trade × BotState :=
  let r := settle_pending_trades oracle now x.1
  (r.1, update_bot_state_with_settlements x.2 r.2)

/-- Sum of the recorded pnl values of a list of trades (a missing pnl
counts as zero, matching the guard in the source update loop). -/
def pnl_sum (trades : List Trade) : ℚ :=
  (trades.map (fun t => t.pnl.getD 0)).sum

/-- Number of trades in the list whose recorded pnl is positive. -/
def win_count (trades : List Trade) : ℕ :=
  (trades.filter (fun t => 0 < t.pnl.getD 0)).length

/-- Configuration record for the signal engine.  KELLY_FRACTION (0.30),
MIN_EDGE_THRESHOLD (0.03) and INITIAL_BANKROLL (10000) carry the values of
src/backend/config.py.  Modelled from the spec: the keys MAX_ENTRY_PRICE,
MIN_TIME_REMAINING, MAX_TIME_REMAINING, MAX_TRADE_SIZE and the five
composite weights are referenced by src/backend/core/signals.py but are
absent from the config draft under src/, so they are carried here as
unconstrained fields with the semantics the spec assigns them. -/
structure Settings where
  INITIAL_BANKROLL : ℚ
  KELLY_FRACTION : ℚ
  MIN_EDGE_THRESHOLD : ℚ
  MAX_ENTRY_PRICE : ℚ
  MIN_TIME_REMAINING : ℚ
  MAX_TIME_REMAINING : ℚ
  MAX_TRADE_SIZE : ℚ
  WEIGHT_RSI : ℚ
  WEIGHT_MOMENTUM : ℚ
  WEIGHT_VWAP : ℚ
  WEIGHT_SMA : ℚ
  WEIGHT_MARKET_SKEW : ℚ
  deriving DecidableEq, Repr

/-- From src/backend/data/crypto.py, the BtcMicrostructure dataclass. -/
structure BtcMicrostructure where
  rsi : ℚ
  momentum_1m : ℚ
  momentum_5m : ℚ
  momentum_15m : ℚ
  vwap : ℚ
  vwap_deviation : ℚ
  sma_crossover : ℚ
  volatility : ℚ
  price : ℚ
  source : String
  deriving DecidableEq, Repr

/-- From src/backend/data/btc_markets.py, the BtcMarket dataclass.
Datetimes are rational unix seconds. -/
structure BtcMarket where
  slug : String
  market_id : String
  up_price : ℚ
  down_price : ℚ
  window_start : ℚ
  window_end : ℚ
  volume : ℚ
  closed : Bool
  deriving DecidableEq, Repr

/-- From src/backend/core/signals.py, the TradingSignal dataclass (the
numeric and routing fields the claims are about; the free-text reasoning
and sources fields are omitted). -/
structure TradingSignal where
  market : BtcMarket
  model_probability : ℚ
  market_probability : ℚ
  edge : ℚ
  direction : String
  confidence : ℚ
  kelly_fraction : ℚ
  suggested_size : ℚ
  timestamp : ℚ
  deriving DecidableEq, Repr

/-- The inline clamp max(-1.0, min(1.0, x)) used for each indicator
opinion in generate_btc_signal. -/
def clamp_pm1 (x : ℚ) : ℚ := max (-1) (min 1 x)

/-- RSI opinion from generate_btc_signal: oversold scales up, overbought
scales down, mild leans inside the 45/55 band. -/
def rsi_signal_of (rsi : ℚ) : ℚ :=
  let raw : ℚ :=
    if rsi < 30 then 1/2 + (30 - rsi) / 30
    else if rsi > 70 then -(1/2) - (rsi - 70) / 30
    else if rsi < 45 then (45 - rsi) / 30
    else if rsi > 55 then -((rsi - 55) / 30)
    else 0
  clamp_pm1 raw

/-- Momentum opinion: the 0.5/0.35/0.15 blend of the 1m, 5m and 15m
changes, normalised by 0.10 percent and clamped. -/
def momentum_signal_of (m : BtcMicrostructure) : ℚ :=
  clamp_pm1 ((m.momentum_1m * (1/2) + m.momentum_5m * (35/100)
    + m.momentum_15m * (15/100)) / (10/100))

/-- VWAP opinion: deviation normalised by 0.05 percent and clamped. -/
def vwap_signal_of (m : BtcMicrostructure) : ℚ :=
  clamp_pm1 (m.vwap_deviation / (5/100))

/-- SMA opinion: crossover normalised by 0.03 percent and clamped. -/
def sma_signal_of (m : BtcMicrostructure) : ℚ :=
  clamp_pm1 (m.sma_crossover / (3/100))

/-- Contrarian market-skew opinion: fade the venue skew times four,
clamped. -/
def skew_signal_of (up_price : ℚ) : ℚ :=
  clamp_pm1 (-(up_price - 1/2) * 4)

/-- Indicator votes counted above the 0.05 deadband, per the convergence
filter in generate_btc_signal (market skew does not vote). -/
def up_votes_of (m : BtcMicrostructure) : ℕ :=
  ([rsi_signal_of m.rsi, momentum_signal_of m, vwap_signal_of m,
    sma_signal_of m].filter (fun s => s > 5/100)).length

/-- Down votes below the negative deadband. -/
def down_votes_of (m : BtcMicrostructure) : ℕ :=
  ([rsi_signal_of m.rsi, momentum_signal_of m, vwap_signal_of m,
    sma_signal_of m].filter (fun s => s < -(5/100))).length

/-- Weighted composite of the five opinions. -/
def composite_of (st : Settings) (m : BtcMicrostructure)
    (up_price : ℚ) : ℚ :=
  rsi_signal_of m.rsi * st.WEIGHT_RSI
    + momentum_signal_of m * st.WEIGHT_MOMENTUM
    + vwap_signal_of m * st.WEIGHT_VWAP
    + sma_signal_of m * st.WEIGHT_SMA
    + skew_signal_of up_price * st.WEIGHT_MARKET_SKEW

/-- Model probability of UP: 0.50 + composite * 0.08 clamped into
[0.42, 0.58]. -/
def model_up_of (st : Settings) (m : BtcMicrostructure)
    (up_price : ℚ) : ℚ :=
  max (42/100) (min (58/100) (1/2 + composite_of st m up_price * (8/100)))

/-- From src/backend/core/signals.py, calculate_edge: the larger of the UP
and DOWN edges picks the direction, ties going to "up". -/
def calculate_edge (model_prob : ℚ) (market_price : ℚ) : ℚ × String :=
  let up_edge := model_prob - market_price
  let down_edge := (1 - model_prob) - (1 - market_price)
  if up_edge ≥ down_edge then (up_edge, "up") else (down_edge, "down")

/-- The volatility factor of the confidence computation: volatility
normalised by 0.05 when positive, and the fallback constant 0.5 when the
volatility is zero or below. -/
def vol_factor_of (volatility : ℚ) : ℚ :=
  if volatility > 0 then min 1 (volatility / (5/100)) else 1/2

/-- From src/backend/core/signals.py, calculate_kelly_size: chosen-side
price and win probability, a guard returning 0 when the price is not
strictly inside (0,1), raw Kelly times KELLY_FRACTION, the hardcoded
3 percent per-trade cap, a floor at zero, scaling by the bankroll and the
MAX_TRADE_SIZE cap. -/
def calculate_kelly_size (st : Settings) (edge : ℚ) (probability : ℚ)
    (market_price : ℚ) (direction : String) (bankroll : ℚ) : ℚ :=
  let win_prob := if direction = "up" then probability else 1 - probability
  let price := if direction = "up" then market_price else 1 - market_price
  if price ≤ 0 ∨ price ≥ 1 then 0
  else
    let odds := (1 - price) / price
    let lose_prob := 1 - win_prob
    let kelly := (win_prob * odds - lose_prob) / odds
    let kelly := kelly * st.KELLY_FRACTION
    let max_fraction : ℚ := 3/100
    let kelly := min kelly max_fraction
    let kelly := max kelly 0
    let size := kelly * bankroll
    min size st.MAX_TRADE_SIZE

/-- From src/backend/core/signals.py, generate_btc_signal, as a pure
function of the configuration, the clock, the fetched microstructure (none
models a failed candle fetch) and the market.  The emitted reasoning and
sources strings are not modelled; the timestamp field takes the current
clock. -/
def generate_btc_signal (st : Settings) (now : ℚ)
    (micro : Option BtcMicrostructure) (market : BtcMarket) :
    Option TradingSignal :=
  match micro with
  | none => none
  | some m =>
    let market_up_prob := market.up_price
    if market_up_prob < 2/100 ∨ market_up_prob > 98/100 then none
    else
      let up_votes := up_votes_of m
      let down_votes := down_votes_of m
      let has_convergence : Bool :=
        decide (up_votes ≥ 4) || decide (down_votes ≥ 4)
      let composite := composite_of st m market_up_prob
      let model_up_prob := model_up_of st m market_up_prob
      let ed := calculate_edge model_up_prob market_up_prob
      let edge := ed.1
      let direction := ed.2
      let entry_price :=
        if direction = "up" then market_up_prob else market.down_price
      let time_remaining := market.window_end - now
      let time_ok : Bool := decide (st.MIN_TIME_REMAINING ≤ time_remaining)
        && decide (time_remaining ≤ st.MAX_TIME_REMAINING)
      let passes_filters : Bool :=
        has_convergence && decide (entry_price ≤ st.MAX_ENTRY_PRICE)
          && time_ok
      let edge := if passes_filters then edge else 0
      let vol_factor := vol_factor_of m.volatility
      let convergence_strength : ℚ := (max up_votes down_votes : ℕ) / 4
      let confidence :=
        min (8/10) (3/10 + convergence_strength * (3/10)
          + |composite| * (2/10)) * vol_factor
      let bankroll := st.INITIAL_BANKROLL
      let suggested_size :=
        calculate_kelly_size st |edge| model_up_prob market_up_prob
          direction bankroll
      some
        { market := market
          model_probability := model_up_prob
          market_probability := market_up_prob
          edge := edge
          direction := direction
          confidence := confidence
          kelly_fraction := if bankroll > 0 then suggested_size / bankroll else 0
          suggested_size := suggested_size
          timestamp := now }

/-- A concrete configuration used by witnesses: the src config values
plus representative values for the keys absent from the src config. -/
def st0 : Settings :=
  ⟨10000, 30/100, 3/100, 48/100, 60, 300, 100,
   20/100, 35/100, 20/100, 15/100, 10/100⟩

/-- A flat microstructure snapshot: RSI 50, no momentum, no deviation,
zero volatility. -/
def micro0 : BtcMicrostructure :=
  ⟨50, 0, 0, 0, 50000, 0, 0, 0, 50000, "binance"⟩

/-- A fair five-minute market ending at 1760000100. -/
def mk0 : BtcMarket :=
  ⟨"btc-updown-5m-1760000100", "123", 1/2, 1/2, 1759999800, 1760000100,
   1000, false⟩

/-- The signal the engine emits for micro0 and mk0 at clock 1760000000. -/
def sig0 : TradingSignal :=
  ⟨mk0, 1/2, 1/2, 0, "up", 3/20, 0, 0, 1760000000⟩

/-- The confidence formula exactly as claim C4 words it: the 0.8 cap
applied after the volatility multiplication, and the volatility factor
min(1, volatility/0.05) for every volatility value including zero. -/
def confidence_claim_formula (m : BtcMicrostructure) (composite : ℚ) : ℚ :=
  min (8/10)
    ((3/10 + ((max (up_votes_of m) (down_votes_of m) : ℕ) : ℚ)/4 * (3/10)
      + |composite| * (2/10)) * min 1 (m.volatility / (5/100)))

/-- The sizing pipeline exactly as claim C5 words it for an in-range
chosen-side price q: odds b = (1-q)/q, raw Kelly (p*b - (1-p))/b times
KELLY_FRACTION, clamped into [0, MAX_TRADE_FRACTION] with the
MAX_TRADE_FRACTION value 0.03 hardcoded in the source, scaled by the
bankroll and capped by MAX_TRADE_SIZE. -/
def kelly_size_claim (st : Settings) (p q bankroll : ℚ) : ℚ :=
  let b := (1 - q) / q
  let raw := (p * b - (1 - p)) / b
  min (max 0 (min (3/100) (raw * st.KELLY_FRACTION)) * bankroll)
    st.MAX_TRADE_SIZE

/-- A nearly resolved market: the venue up-price is 0.01. -/
def mkLow : BtcMarket :=
  ⟨"btc-updown-5m-1760000100", "124", 1/100, 99/100, 1759999800,
   1760000100, 1000, false⟩

/-- The Wilder smoothing loop of the RSI computation in
src/backend/data/crypto.py: deltas of consecutive closes, initial average
gain and loss as means of the first period gains and losses, then the
recurrence (prev * (period - 1) + new) / period over the remaining
deltas.  Returns the final (average gain, average loss) pair. -/
def wilder_avgs (closes : List ℚ) (period : ℕ) : ℚ × ℚ :=
  let deltas := List.zipWith (fun a b => a - b) closes.tail closes
  let gains := (deltas.take period).map (fun d => if d > 0 then d else 0)
  let losses := (deltas.take period).map (fun d => if d < 0 then -d else 0)
  let avg_gain := gains.sum / (period : ℚ)
  let avg_loss := losses.sum / (period : ℚ)
  (deltas.drop period).foldl
    (fun a d =>
      ((a.1 * ((period : ℚ) - 1) + (if d > 0 then d else 0)) / (period : ℚ),
       (a.2 * ((period : ℚ) - 1) + (if d < 0 then -d else 0)) / (period : ℚ)))
    (avg_gain, avg_loss)

/-- From src/backend/data/crypto.py, the function named there with a
leading underscore (compute RSI using Wilder smoothing): fewer than
period + 1 closes give the neutral 50; a zero final average loss gives
100; otherwise 100 - 100/(1 + rs). -/
def compute_rsi (closes : List ℚ) (period : ℕ) : ℚ :=
  if closes.length < period + 1 then 50
  else
    let f := wilder_avgs closes period
    if f.2 = 0 then 100 else 100 - 100 / (1 + f.1 / f.2)

/-- The Wilder loop exactly as claim C7 words it, with the literal
constants of period 14: means of the first 14 gains and losses, then
(prev * 13 + new) / 14. -/
def wilder_avgs_claim (closes : List ℚ) : ℚ × ℚ :=
  let deltas := List.zipWith (fun a b => a - b) closes.tail closes
  let gains := (deltas.take 14).map (fun d => if d > 0 then d else 0)
  let losses := (deltas.take 14).map (fun d => if d < 0 then -d else 0)
  let avg_gain := gains.sum / 14
  let avg_loss := losses.sum / 14
  (deltas.drop 14).foldl
    (fun a d =>
      ((a.1 * 13 + (if d > 0 then d else 0)) / 14,
       (a.2 * 13 + (if d < 0 then -d else 0)) / 14))
    (avg_gain, avg_loss)

/-- RSI(14) as claim C7 words it. -/
def rsi_claim (closes : List ℚ) : ℚ :=
  let f := wilder_avgs_claim closes
  if f.2 = 0 then 100 else 100 - 100 / (1 + f.1 / f.2)

/-- A persisted Signal row (the columns the dedup query of
_persist_signals in src/backend/core/signals.py reads). -/
structure SignalRow where
  market_ticker : String
  timestamp : ℚ
  edge : ℚ
  deriving DecidableEq, Repr

/-- The Python expression timestamp.replace(second=0, microsecond=0) on a
rational unix-second timestamp: the enclosing minute boundary. -/
def minute_floor (t : ℚ) : ℚ := 60 * (⌊t / 60⌋ : ℤ)

/-- The loop body of _persist_signals (src/backend/core/signals.py): skip
the insert when the store already holds a row for the same market ticker
with timestamp at or after the minute boundary of the new signal. -/
def insert_signal_dedup (db : List SignalRow) (s : TradingSignal) :
    List SignalRow :=
  if db.any (fun r => decide (r.market_ticker = s.market.market_id)
      && decide (minute_floor s.timestamp ≤ r.timestamp)) then db
  else db ++ [⟨s.market.market_id, s.timestamp, s.edge⟩]

/-- From src/backend/core/signals.py, _persist_signals: keep the signals
with non-zero edge and run the dedup insert for each in order. -/
def persist_signals (db : List SignalRow) (signals : List TradingSignal) :
    List SignalRow :=
  (signals.filter (fun s => decide (|s.edge| > 0))).foldl
    insert_signal_dedup db

/-- Two rows collide when they share the market ticker and the minute
boundary of their timestamps. -/
def same_key (a b : SignalRow) : Prop :=
  a.market_ticker = b.market_ticker
    ∧ minute_floor a.timestamp = minute_floor b.timestamp

/-- From src/backend/data/btc_markets.py, the rounding helper named there
with a leading underscore: int(ts) // 300 * 300 on the nonnegative
wall-clock reading, modelled on natural-number seconds. -/
def round_to_5min (ts : ℕ) : ℕ := ts / 300 * 300

/-- From src/backend/data/btc_markets.py, the window-slug enumerator named
there with a leading underscore: the current window ends at the boundary
after the current one, and count consecutive windows follow at 300-second
steps. -/
def compute_window_slugs (count : ℕ) (now : ℕ) : List String :=
  let current_boundary := round_to_5min now
  let next_boundary := current_boundary + 300
  (List.range count).map
    (fun i => "btc-updown-5m-" ++ toString (next_boundary + i * 300))

/-- The end timestamps of the enumerated windows. -/
def window_ends (count : ℕ) (now : ℕ) : List ℕ :=
  (List.range count).map (fun i => round_to_5min now + 300 + i * 300)

/-- The anchored regular expression of btc_markets.py on a character
list: the literal prefix, then exactly ten decimal digits, then the end
of the string. -/
def matches_btc_slug (cs : List Char) : Bool :=
  decide (cs.take 14 = "btc-updown-5m-".data)
    && decide ((cs.drop 14).length = 10)
    && (cs.drop 14).all Char.isDigit

/-- From src/backend/data/btc_markets.py, is_valid_btc_slug: full-match
of the slug against the anchored pattern. -/
def is_valid_btc_slug (s : String) : Bool := matches_btc_slug s.data

/-- From src/backend/data/btc_markets.py, fetch_btc_market_by_slug with
the venue response abstracted as a lookup: an invalid slug is rejected
before any request is made. -/
def fetch_btc_market_by_slug (bySlug : String → Option BtcMarket)
    (slug : String) : Option BtcMarket :=
  if is_valid_btc_slug slug then bySlug slug else none

/-- The series-search loop of fetch_active_btc_markets
(src/backend/data/btc_markets.py): each event parsed from the search is
kept only when its slug is unseen and valid; the accumulator carries the
seen slugs and the collected markets. -/
def series_search_fold (acc : List String × List BtcMarket)
    (found : List BtcMarket) : List String × List BtcMarket :=
  found.foldl
    (fun a m =>
      if !a.1.contains m.slug && is_valid_btc_slug m.slug then
        (m.slug :: a.1, a.2 ++ [m])
      else a)
    acc

/-- Decimal digit characters of a natural number, most significant
first: the reference rendering that Nat.repr is proved to produce. -/
def natDigitsChars (n : ℕ) : List Char :=
  if h : n < 10 then [Nat.digitChar n]
  else natDigitsChars (n / 10) ++ [Nat.digitChar (n % 10)]
termination_by n
decreasing_by exact Nat.div_lt_self (by omega) (by omega)

lemma apply_settlement_bankroll (st : BotState) (t : Trade) :
    (apply_settlement st t).bankroll = st.bankroll + t.pnl.getD 0 := by
  cases h : t.pnl <;> simp [apply_settlement, h]

lemma apply_settlement_total_pnl (st : BotState) (t : Trade) :
    (apply_settlement st t).total_pnl = st.total_pnl + t.pnl.getD 0 := by
  cases h : t.pnl <;> simp [apply_settlement, h]

lemma result_string_eq_win (p : ℚ) : result_string p = "win" ↔ 0 < p := by
  have hpw : ¬ (("push" : String) = "win") := by decide
  have hlw : ¬ (("loss" : String) = "win") := by decide
  rcases lt_trichotomy (0 : ℚ) p with h | h | h
  · simp [result_string, h]
  · simp [result_string, ← h, lt_irrefl, hpw]
  · simp [result_string, h, not_lt_of_gt h, hlw]

lemma apply_settlement_winning (st : BotState) (t : Trade) (p : ℚ)
    (hp : t.pnl = some p) (hr : t.result = result_string p) :
    (apply_settlement st t).winning_trades
      = st.winning_trades + (if 0 < t.pnl.getD 0 then 1 else 0) := by
  have hg : t.pnl.getD 0 = p := by simp [hp]
  by_cases h : 0 < p
  · simp [apply_settlement, hp, hr, hg, h, (result_string_eq_win p).mpr h]
  · have : ¬ t.result = "win" := by
      rw [hr]; exact fun hx => h ((result_string_eq_win p).mp hx)
    simp [apply_settlement, hp, hg, h, this]

lemma update_bankroll (s : BotState) (ts : List Trade) :
    (update_bot_state_with_settlements s ts).bankroll
      = s.bankroll + pnl_sum ts := by
  induction ts generalizing s with
  | nil => simp [update_bot_state_with_settlements, pnl_sum]
  | cons t ts ih =>
    have h1 : update_bot_state_with_settlements s (t :: ts)
        = update_bot_state_with_settlements (apply_settlement s t) ts := rfl
    rw [h1, ih, apply_settlement_bankroll]
    simp [pnl_sum]
    ring

lemma update_total_pnl (s : BotState) (ts : List Trade) :
    (update_bot_state_with_settlements s ts).total_pnl
      = s.total_pnl + pnl_sum ts := by
  induction ts generalizing s with
  | nil => simp [update_bot_state_with_settlements, pnl_sum]
  | cons t ts ih =>
    have h1 : update_bot_state_with_settlements s (t :: ts)
        = update_bot_state_with_settlements (apply_settlement s t) ts := rfl
    rw [h1, ih, apply_settlement_total_pnl]
    simp [pnl_sum]
    ring

lemma update_winning (s : BotState) (ts : List Trade)
    (h : ∀ t ∈ ts, ∃ p : ℚ, t.pnl = some p ∧ t.result = result_string p) :
    (update_bot_state_with_settlements s ts).winning_trades
      = s.winning_trades + win_count ts := by
  induction ts generalizing s with
  | nil => simp [update_bot_state_with_settlements, win_count]
  | cons t ts ih =>
    obtain ⟨p, hp, hr⟩ := h t (List.mem_cons_self t ts)
    have h1 : update_bot_state_with_settlements s (t :: ts)
        = update_bot_state_with_settlements (apply_settlement s t) ts := rfl
    rw [h1, ih _ (fun u hu => h u (List.mem_cons_of_mem t hu)),
      apply_settlement_winning s t p hp hr]
    have hw : win_count (t :: ts)
        = (if 0 < t.pnl.getD 0 then 1 else 0) + win_count ts := by
      by_cases hc : 0 < t.pnl.getD 0 <;> simp [win_count, hc, Nat.add_comm]
    rw [hw]
    omega

lemma win_count_eq_result_win (ts : List Trade)
    (h : ∀ t ∈ ts, ∃ p : ℚ, t.pnl = some p ∧ t.result = result_string p) :
    win_count ts = (ts.filter (fun t => t.result = "win")).length := by
  induction ts with
  | nil => simp [win_count]
  | cons t ts ih =>
    obtain ⟨p, hp, hr⟩ := h t (List.mem_cons_self t ts)
    have ht : (0 < t.pnl.getD 0) ↔ t.result = "win" := by
      rw [hr, result_string_eq_win]
      simp [hp]
    have ih2 := ih (fun u hu => h u (List.mem_cons_of_mem t hu))
    by_cases hc : 0 < t.pnl.getD 0
    · simp [win_count, List.filter_cons, hc, ht.mp hc] at *
      omega
    · have : ¬ t.result = "win" := fun hx => hc (ht.mpr hx)
      simp [win_count, List.filter_cons, hc, this] at *
      exact ih2

/-- C2: applying a batch of settled trades to the bot state adds the sum
of their pnl to the bankroll and to total_pnl, and adds to winning_trades
exactly the number of trades whose result is "win", which equals the
number of trades with positive pnl; folding over a whole history of
batches adds the total pnl sum to the initial bankroll. -/
theorem c2_pnl_identity (s : BotState) (ts : List Trade)
    (h : ∀ t ∈ ts, ∃ p : ℚ, t.pnl = some p ∧ t.result = result_string p) :
    (update_bot_state_with_settlements s ts).bankroll = s.bankroll + pnl_sum ts
  ∧ (update_bot_state_with_settlements s ts).total_pnl
      = s.total_pnl + pnl_sum ts
  ∧ (update_bot_state_with_settlements s ts).winning_trades
      = s.winning_trades + win_count ts
  ∧ win_count ts = (ts.filter (fun t => t.result = "win")).length
  ∧ ∀ batches : List (List Trade),
      (batches.foldl update_bot_state_with_settlements s).bankroll
        = s.bankroll + (batches.map pnl_sum).sum := by
  refine ⟨update_bankroll s ts, update_total_pnl s ts, update_winning s ts h,
    win_count_eq_result_win ts h, ?_⟩
  intro batches
  induction batches generalizing s with
  | nil => simp
  | cons b bs ih =>
    have h1 : (b :: bs).foldl update_bot_state_with_settlements s
        = bs.foldl update_bot_state_with_settlements
            (update_bot_state_with_settlements s b) := rfl
    rw [h1, ih, update_bankroll]
    simp
    ring

/-- Concrete instance of c2_pnl_identity: a winning trade of pnl 30 and a
losing trade of pnl -10 change the bankroll by their sum. -/
theorem c2_pnl_identity_witness :
    (update_bot_state_with_settlements ⟨10000, 0, 0, 2, true⟩
      [⟨"a", "up", 2/5, 50, true, some 1, some 30, "win", some 0⟩,
       ⟨"b", "down", 1/2, 20, true, some 1, some (-10), "loss", some 0⟩]).bankroll
      = 10000 + pnl_sum
          [⟨"a", "up", 2/5, 50, true, some 1, some 30, "win", some 0⟩,
           ⟨"b", "down", 1/2, 20, true, some 1, some (-10), "loss", some 0⟩] :=
  (c2_pnl_identity ⟨10000, 0, 0, 2, true⟩
    [⟨"a", "up", 2/5, 50, true, some 1, some 30, "win", some 0⟩,
     ⟨"b", "down", 1/2, 20, true, some 1, some (-10), "loss", some 0⟩]
    (by
      intro t ht
      simp only [List.mem_cons, List.not_mem_nil, or_false] at ht
      rcases ht with rfl | rfl
      · exact ⟨30, rfl, by norm_num [result_string]⟩
      · exact ⟨-10, rfl, by norm_num [result_string]⟩)).1

lemma settle_step_of_settled (oracle : Trade → Option ℚ) (now : ℚ)
    (t : Trade) (h : t.settled = true) : settle_step oracle now t = t := by
  simp [settle_step, h]

lemma settle_step_idem (oracle : Trade → Option ℚ) (now1 now2 : ℚ)
    (t : Trade) :
    settle_step oracle now2 (settle_step oracle now1 t)
      = settle_step oracle now1 t := by
  by_cases h : t.settled
  · rw [settle_step_of_settled oracle now1 t h,
      settle_step_of_settled oracle now2 t h]
  · cases ho : oracle t with
    | none => simp [settle_step, h, ho]
    | some sv =>
        have h1 : settle_step oracle now1 t
            = { t with
                settled := true
                settlement_value := some sv
                pnl := some (calculate_pnl t sv)
                settlement_time := some now1
                result := result_string (calculate_pnl t sv) } := by
          simp [settle_step, h, ho]
        rw [h1]
        apply settle_step_of_settled
        rfl

lemma settle_step_not_pending (oracle : Trade → Option ℚ) (now : ℚ)
    (t : Trade) :
    (!(settle_step oracle now t).settled
      && (oracle (settle_step oracle now t)).isSome) = false := by
  by_cases h : t.settled
  · rw [settle_step_of_settled oracle now t h]
    simp [h]
  · cases ho : oracle t with
    | none =>
        have h1 : settle_step oracle now t = t := by simp [settle_step, h, ho]
        rw [h1]
        simp [ho]
    | some sv =>
        have h1 : (settle_step oracle now t).settled = true := by
          simp [settle_step, h, ho]
        simp [h1]

/-- C9: a trade already marked settled passes through settlement untouched,
and running the whole settle-and-update job a second time (at any later
clock reading) changes neither the trade table nor the bot state. -/
theorem c9_settlement_idempotent (oracle : Trade → Option ℚ)
    (now1 now2 : ℚ) (trades : List Trade) (state : BotState) :
    (∀ t ∈ trades, t.settled = true → settle_step oracle now1 t = t)
  ∧ settlement_job oracle now2 (settlement_job oracle now1 (trades, state))
      = settlement_job oracle now1 (trades, state) := by
  constructor
  · exact fun t _ h => settle_step_of_settled oracle now1 t h
  · have hfilter :
        (trades.map (settle_step oracle now1)).filter
          (fun t => !t.settled && (oracle t).isSome) = [] := by
      rw [List.filter_eq_nil_iff]
      intro t ht
      obtain ⟨u, _, rfl⟩ := List.mem_map.mp ht
      simp [settle_step_not_pending oracle now1 u]
    have hmap :
        (trades.map (settle_step oracle now1)).map (settle_step oracle now2)
          = trades.map (settle_step oracle now1) := by
      rw [List.map_map]
      exact List.map_congr_left
        (fun t _ => settle_step_idem oracle now1 now2 t)
    simp only [settlement_job, settle_pending_trades, hfilter, hmap,
      List.map_nil]
    rfl

/-- Concrete instance of c9_settlement_idempotent: with one already
settled trade and one undecided trade, a repeat of the settle job is a
no-op on both the trade list and the state. -/
theorem c9_settlement_idempotent_witness :
    (settle_step (fun _ => none) 0
        ⟨"a", "up", 2/5, 50, true, some 1, some 30, "win", some 0⟩
      = ⟨"a", "up", 2/5, 50, true, some 1, some 30, "win", some 0⟩)
  ∧ settlement_job (fun _ => none) 60
      (settlement_job (fun _ => none) 0
        ([⟨"a", "up", 2/5, 50, true, some 1, some 30, "win", some 0⟩,
          ⟨"b", "down", 1/2, 20, false, none, none, "pending", none⟩],
         ⟨10000, 0, 0, 2, true⟩))
      = settlement_job (fun _ => none) 0
        ([⟨"a", "up", 2/5, 50, true, some 1, some 30, "win", some 0⟩,
          ⟨"b", "down", 1/2, 20, false, none, none, "pending", none⟩],
         ⟨10000, 0, 0, 2, true⟩) :=
  ⟨(c9_settlement_idempotent (fun _ => none) 0 60
      [⟨"a", "up", 2/5, 50, true, some 1, some 30, "win", some 0⟩]
      ⟨10000, 0, 0, 2, true⟩).1
      ⟨"a", "up", 2/5, 50, true, some 1, some 30, "win", some 0⟩
      (by simp) rfl,
   (c9_settlement_idempotent (fun _ => none) 0 60
      [⟨"a", "up", 2/5, 50, true, some 1, some 30, "win", some 0⟩,
       ⟨"b", "down", 1/2, 20, false, none, none, "pending", none⟩]
      ⟨10000, 0, 0, 2, true⟩).2⟩

/-- C1: calculate_pnl special-cases only the direction string "yes", so a
settled winning trade with direction "up" (entry 0.40, size 50,
settlement value 1.0) is scored as a losing NO position: the source
returns -20.00 where the specification requires +30.00.  The same trade
with direction "yes" does return +30.00. -/
theorem c1_calculate_pnl_up_bug :
    calculate_pnl
        ⟨"btc-updown-5m-1760000100", "up", 2/5, 50, false, none, none,
          "pending", none⟩ 1 = -20
  ∧ calculate_pnl
        ⟨"btc-updown-5m-1760000100", "yes", 2/5, 50, false, none, none,
          "pending", none⟩ 1 = 30
  ∧ (-20 : ℚ) ≠ 50 * (1 - 2/5) := by
  have hne : ¬ (("up" : String) = "yes") := by decide
  refine ⟨?_, ?_, by norm_num⟩
  · norm_num [calculate_pnl, round2, hne]
  · norm_num [calculate_pnl, round2]

lemma rsi_signal_micro0 : rsi_signal_of micro0.rsi = 0 := by
  norm_num [rsi_signal_of, micro0, clamp_pm1]

lemma momentum_signal_micro0 : momentum_signal_of micro0 = 0 := by
  norm_num [momentum_signal_of, micro0, clamp_pm1]

lemma vwap_signal_micro0 : vwap_signal_of micro0 = 0 := by
  norm_num [vwap_signal_of, micro0, clamp_pm1]

lemma sma_signal_micro0 : sma_signal_of micro0 = 0 := by
  norm_num [sma_signal_of, micro0, clamp_pm1]

lemma up_votes_micro0 : up_votes_of micro0 = 0 := by
  have h : ¬ ((0 : ℚ) > 5/100) := by norm_num
  simp [up_votes_of, rsi_signal_micro0, momentum_signal_micro0,
    vwap_signal_micro0, sma_signal_micro0, List.filter, h]

lemma down_votes_micro0 : down_votes_of micro0 = 0 := by
  have h : ¬ ((0 : ℚ) < -(5/100)) := by norm_num
  simp [down_votes_of, rsi_signal_micro0, momentum_signal_micro0,
    vwap_signal_micro0, sma_signal_micro0, List.filter, h]

lemma composite_micro0 : composite_of st0 micro0 (1/2) = 0 := by
  rw [composite_of, rsi_signal_micro0, momentum_signal_micro0,
    vwap_signal_micro0, sma_signal_micro0]
  norm_num [skew_signal_of, clamp_pm1]

lemma model_up_micro0 : model_up_of st0 micro0 (1/2) = 1/2 := by
  rw [model_up_of, composite_micro0]; norm_num

lemma edge_half_eq : calculate_edge (1/2) (1/2) = (0, "up") := by
  rw [calculate_edge]; norm_num

lemma kelly_flat_eq :
    calculate_kelly_size st0 0 (1/2) (1/2) "up" 10000 = 0 := by
  rw [calculate_kelly_size]
  norm_num [st0]

lemma vol_factor_micro0 : vol_factor_of micro0.volatility = 1/2 := by
  norm_num [vol_factor_of, micro0]

lemma gen0_eq :
    generate_btc_signal st0 1760000000 (some micro0) mk0 = some sig0 := by
  have hup : mk0.up_price = 1/2 := rfl
  have hrange : ¬ (mk0.up_price < 2/100 ∨ mk0.up_price > 98/100) := by
    rw [hup]; norm_num
  simp only [generate_btc_signal, if_neg hrange, hup, up_votes_micro0,
    down_votes_micro0, composite_micro0, model_up_micro0, edge_half_eq,
    vol_factor_micro0]
  have hwend : mk0.window_end = 1760000100 := rfl
  have h1 : st0.MIN_TIME_REMAINING = 60 := rfl
  have h2 : st0.MAX_TIME_REMAINING = 300 := rfl
  have h3 : st0.MAX_ENTRY_PRICE = 48/100 := rfl
  have h4 : st0.INITIAL_BANKROLL = 10000 := rfl
  norm_num [hwend, h1, h2, h3, h4, kelly_flat_eq, sig0, hup]

/-- C3: the model probability of an emitted signal is exactly
0.50 + composite * 0.08 clamped into [0.42, 0.58], and therefore always
lies in [0.42, 0.58]. -/
theorem c3_probability_bounds (st : Settings) (now : ℚ)
    (m : BtcMicrostructure) (market : BtcMarket) (s : TradingSignal)
    (h : generate_btc_signal st now (some m) market = some s) :
    s.model_probability
      = max (42/100) (min (58/100)
          (1/2 + composite_of st m market.up_price * (8/100)))
  ∧ 42/100 ≤ s.model_probability ∧ s.model_probability ≤ 58/100 := by
  by_cases hc : market.up_price < 2/100 ∨ market.up_price > 98/100
  · simp only [generate_btc_signal, if_pos hc] at h
    exact absurd h (by simp)
  · simp only [generate_btc_signal, if_neg hc] at h
    have hs := (Option.some.inj h).symm
    subst hs
    refine ⟨by rw [model_up_of], ?_, ?_⟩
    · exact le_max_left _ _
    · exact max_le (by norm_num) (min_le_left _ _)

/-- Concrete instance of c3_probability_bounds at the flat snapshot: the
emitted probability is the clamped formula and lies in the band. -/
theorem c3_probability_bounds_witness :
    sig0.model_probability
      = max (42/100) (min (58/100)
          (1/2 + composite_of st0 micro0 mk0.up_price * (8/100)))
  ∧ 42/100 ≤ sig0.model_probability ∧ sig0.model_probability ≤ 58/100 :=
  c3_probability_bounds st0 1760000000 micro0 mk0 sig0 gen0_eq

/-- C4 as stated is false on the code: at zero volatility the source uses
the fallback factor 0.5 (emitting confidence 0.15 for the flat snapshot)
while the claim formula min(1, volatility/0.05) yields 0. -/
theorem c4_confidence_counterexample :
    generate_btc_signal st0 1760000000 (some micro0) mk0 = some sig0
  ∧ sig0.confidence = 3/20
  ∧ confidence_claim_formula micro0 (composite_of st0 micro0 mk0.up_price)
      = 0
  ∧ sig0.confidence
      ≠ confidence_claim_formula micro0
          (composite_of st0 micro0 mk0.up_price) := by
  have hup : mk0.up_price = 1/2 := rfl
  refine ⟨gen0_eq, by norm_num [sig0], ?_, ?_⟩
  · rw [confidence_claim_formula, hup, composite_micro0, up_votes_micro0,
      down_votes_micro0]
    norm_num [micro0]
  · rw [confidence_claim_formula, hup, composite_micro0, up_votes_micro0,
      down_votes_micro0]
    norm_num [micro0, sig0]

/-- C4 amended: the confidence of an emitted signal equals
min(0.8, 0.3 + (max_votes/4) * 0.3 + abs(composite) * 0.2) multiplied by the
volatility factor, where the factor is min(1, volatility/0.05) for positive
volatility and the fallback 0.5 otherwise; the 0.8 cap is applied to the
base before the multiplication. -/
theorem c4_confidence_formula (st : Settings) (now : ℚ)
    (m : BtcMicrostructure) (market : BtcMarket) (s : TradingSignal)
    (h : generate_btc_signal st now (some m) market = some s) :
    s.confidence
      = min (8/10)
          (3/10 + ((max (up_votes_of m) (down_votes_of m) : ℕ) : ℚ)/4 * (3/10)
            + |composite_of st m market.up_price| * (2/10))
        * vol_factor_of m.volatility := by
  by_cases hc : market.up_price < 2/100 ∨ market.up_price > 98/100
  · simp only [generate_btc_signal, if_pos hc] at h
    exact absurd h (by simp)
  · simp only [generate_btc_signal, if_neg hc] at h
    have hs := (Option.some.inj h).symm
    subst hs
    rfl

/-- Concrete instance of c4_confidence_formula at the flat snapshot. -/
theorem c4_confidence_formula_witness :
    sig0.confidence
      = min (8/10)
          (3/10
            + ((max (up_votes_of micro0) (down_votes_of micro0) : ℕ) : ℚ)/4
              * (3/10)
            + |composite_of st0 micro0 mk0.up_price| * (2/10))
        * vol_factor_of micro0.volatility :=
  c4_confidence_formula st0 1760000000 micro0 mk0 sig0 gen0_eq

/-- C5 as stated is false on the code: the clamp is applied to the Kelly
fraction before the bankroll scaling, so a negative bankroll makes the
returned size negative, outside [0, MAX_TRADE_SIZE]. -/
theorem c5_kelly_counterexample :
    calculate_kelly_size st0 0 (58/100) (1/2) "up" (-100) = -3
  ∧ ¬ (0 ≤ calculate_kelly_size st0 0 (58/100) (1/2) "up" (-100)) := by
  have h : calculate_kelly_size st0 0 (58/100) (1/2) "up" (-100) = -3 := by
    rw [calculate_kelly_size]
    norm_num [st0]
  exact ⟨h, by rw [h]; norm_num⟩

/-- C5 amended: the guard returns 0 whenever the chosen-side price is not
strictly inside (0,1); for an in-range price the size equals the claim
formula; and for a nonnegative bankroll (and nonnegative MAX_TRADE_SIZE)
the returned size always lies in [0, MAX_TRADE_SIZE]. -/
theorem c5_kelly_size (st : Settings) (edge p q : ℚ) (dir : String)
    (bankroll : ℚ) :
    ((if dir = "up" then q else 1 - q) ≤ 0
        ∨ (if dir = "up" then q else 1 - q) ≥ 1 →
      calculate_kelly_size st edge p q dir bankroll = 0)
  ∧ (0 < (if dir = "up" then q else 1 - q)
      → (if dir = "up" then q else 1 - q) < 1
      → calculate_kelly_size st edge p q dir bankroll
          = kelly_size_claim st (if dir = "up" then p else 1 - p)
              (if dir = "up" then q else 1 - q) bankroll)
  ∧ (0 ≤ bankroll → 0 ≤ st.MAX_TRADE_SIZE →
      0 ≤ calculate_kelly_size st edge p q dir bankroll
      ∧ calculate_kelly_size st edge p q dir bankroll
          ≤ st.MAX_TRADE_SIZE) := by
  set price := (if dir = "up" then q else 1 - q) with hprice
  refine ⟨?_, ?_, ?_⟩
  · intro h
    simp only [calculate_kelly_size, ← hprice, if_pos h]
  · intro h0 h1
    have hg : ¬ (price ≤ 0 ∨ price ≥ 1) := by
      push_neg
      exact ⟨h0, h1⟩
    have hmm : ∀ x : ℚ, max (min x (3/100)) 0 = max 0 (min (3/100) x) := by
      intro x
      rw [min_comm, max_comm]
    simp only [calculate_kelly_size, kelly_size_claim, ← hprice, if_neg hg,
      hmm]
  · intro hb hm
    by_cases hg : price ≤ 0 ∨ price ≥ 1
    · simp only [calculate_kelly_size, ← hprice, if_pos hg]
      exact ⟨le_refl 0, hm⟩
    · simp only [calculate_kelly_size, ← hprice, if_neg hg]
      constructor
      · exact le_min (mul_nonneg (le_max_right _ 0) hb) hm
      · exact min_le_right _ _

/-- Concrete instance of c5_kelly_size: with a 10000 bankroll and price
0.5 the guard clause, the formula clause and the bounds all hold. -/
theorem c5_kelly_size_witness :
    calculate_kelly_size st0 0 (58/100) (1/2) "up" 10000
      = kelly_size_claim st0 (58/100) (1/2) 10000
  ∧ 0 ≤ calculate_kelly_size st0 0 (58/100) (1/2) "up" 10000
  ∧ calculate_kelly_size st0 0 (58/100) (1/2) "up" 10000
      ≤ st0.MAX_TRADE_SIZE :=
  ⟨(c5_kelly_size st0 0 (58/100) (1/2) "up" 10000).2.1 (by norm_num)
      (by norm_num),
   (c5_kelly_size st0 0 (58/100) (1/2) "up" 10000).2.2 (by norm_num)
      (by norm_num [st0])⟩

/-- C10: when the venue up-price is below 0.02 or above 0.98 the signal
engine returns nothing, even when a microstructure snapshot is
available. -/
theorem c10_skip_resolved (st : Settings) (now : ℚ)
    (m : BtcMicrostructure) (market : BtcMarket)
    (h : market.up_price < 2/100 ∨ market.up_price > 98/100) :
    generate_btc_signal st now (some m) market = none := by
  simp only [generate_btc_signal, if_pos h]

/-- Concrete instance of c10_skip_resolved: the 1-cent market produces no
signal despite the available flat snapshot. -/
theorem c10_skip_resolved_witness :
    mkLow.up_price < 2/100
  ∧ generate_btc_signal st0 1760000000 (some micro0) mkLow = none :=
  ⟨by norm_num [mkLow],
   c10_skip_resolved st0 1760000000 micro0 mkLow
     (Or.inl (by norm_num [mkLow]))⟩

lemma wilder_avgs_14 (closes : List ℚ) :
    wilder_avgs closes 14 = wilder_avgs_claim closes := by
  rw [wilder_avgs, wilder_avgs_claim]
  have hc : ((14 : ℕ) : ℚ) = 14 := by norm_num
  have h13 : (14 : ℚ) - 1 = 13 := by norm_num
  simp only [hc, h13]

lemma zipWith_sub_self_replicate (m n : ℕ) (c : ℚ) :
    List.zipWith (fun a b => a - b) (List.replicate m c)
      (List.replicate n c) = List.replicate (min m n) 0 := by
  induction m generalizing n with
  | zero => simp
  | succ m ih =>
    cases n with
    | zero => simp
    | succ n =>
      simp only [List.replicate_succ, List.zipWith_cons_cons, ih,
        Nat.succ_min_succ, sub_self]

lemma foldl_replicate_fixed {α β : Type} (f : α → β → α) (x : α) (b : β)
    (hf : f x b = x) (m : ℕ) : (List.replicate m b).foldl f x = x := by
  induction m with
  | zero => rfl
  | succ m ih => rw [List.replicate_succ, List.foldl_cons, hf, ih]

lemma fold_wilder_zero (m : ℕ) :
    (List.replicate m (0:ℚ)).foldl
      (fun (a : ℚ × ℚ) d =>
        ((a.1 * (((14:ℕ) : ℚ) - 1) + (if d > 0 then d else 0))
            / ((14:ℕ) : ℚ),
         (a.2 * (((14:ℕ) : ℚ) - 1) + (if d < 0 then -d else 0))
            / ((14:ℕ) : ℚ)))
      (0, 0) = (0, 0) :=
  foldl_replicate_fixed _ _ _ (by norm_num) m

lemma wilder_avgs_replicate (n : ℕ) (c : ℚ) (h : 15 ≤ n) :
    wilder_avgs (List.replicate n c) 14 = (0, 0) := by
  rw [wilder_avgs, List.tail_replicate, zipWith_sub_self_replicate]
  have hmin : min (n - 1) n = n - 1 := min_eq_left (Nat.sub_le n 1)
  rw [hmin]
  have ht : (List.replicate (n-1) (0:ℚ)).take 14 = List.replicate 14 0 := by
    rw [List.take_replicate]
    congr 1
    omega
  have hd : (List.replicate (n-1) (0:ℚ)).drop 14
      = List.replicate (n-1-14) 0 := by
    rw [List.drop_replicate]
  rw [ht, hd]
  have hmap : (List.replicate 14 (0:ℚ)).map
      (fun d => if d > 0 then d else 0) = List.replicate 14 0 := by
    rw [List.map_replicate]; norm_num
  have hmap2 : (List.replicate 14 (0:ℚ)).map
      (fun d => if d < 0 then -d else 0) = List.replicate 14 0 := by
    rw [List.map_replicate]; norm_num
  rw [hmap, hmap2]
  have hsum : (List.replicate 14 (0:ℚ)).sum = 0 := by simp
  rw [hsum]
  have hz : (0 : ℚ) / ((14:ℕ) : ℚ) = 0 := by norm_num
  rw [hz]
  exact fold_wilder_zero (n-1-14)

/-- C7: for at least 15 closes the source RSI agrees with the claim
formula (Wilder smoothing with initial means over the first 14 deltas and
the (prev*13 + new)/14 recurrence); a zero final average loss yields
exactly 100, and in particular any run of at least 15 equal closes yields
exactly 100. -/
theorem c7_rsi_wilder (closes : List ℚ) (h : 15 ≤ closes.length) :
    compute_rsi closes 14 = rsi_claim closes
  ∧ ((wilder_avgs closes 14).2 = 0 → compute_rsi closes 14 = 100)
  ∧ ∀ (n : ℕ) (c : ℚ), 15 ≤ n → compute_rsi (List.replicate n c) 14 = 100 := by
  have hlen : ¬ (closes.length < 14 + 1) := by omega
  refine ⟨?_, ?_, ?_⟩
  · rw [compute_rsi, if_neg hlen, rsi_claim, wilder_avgs_14]
  · intro h0
    rw [compute_rsi, if_neg hlen]
    simp only [h0]
    norm_num
  · intro n c hn
    have hlen2 : ¬ ((List.replicate n c).length < 14 + 1) := by
      rw [List.length_replicate]; omega
    rw [compute_rsi, if_neg hlen2, wilder_avgs_replicate n c hn]
    norm_num

/-- Concrete instance of c7_rsi_wilder: twenty equal closes at 50000 give
RSI exactly 100. -/
theorem c7_rsi_wilder_witness :
    (15 : ℕ) ≤ 20
  ∧ compute_rsi (List.replicate 20 (50000:ℚ)) 14 = 100 :=
  ⟨by norm_num,
   (c7_rsi_wilder (List.replicate 20 (50000:ℚ))
     (by rw [List.length_replicate]; norm_num)).2.2 20 50000 (by norm_num)⟩

lemma minute_floor_le (t : ℚ) : minute_floor t ≤ t := by
  rw [minute_floor]
  have h := Int.floor_le (t / 60)
  linarith

/-- C8: persisting two non-zero-edge signals for the same market whose
timestamps share a minute adds exactly one row (the second insert is
silently skipped), and the dedup insert preserves uniqueness of the
(market_ticker, minute_floor(timestamp)) key across the store. -/
theorem c8_signal_dedup (db : List SignalRow) (s1 s2 : TradingSignal)
    (hmkt : s1.market.market_id = s2.market.market_id)
    (hmin : minute_floor s1.timestamp = minute_floor s2.timestamp)
    (he1 : |s1.edge| > 0) (he2 : |s2.edge| > 0)
    (hfree : ∀ r ∈ db, ¬(r.market_ticker = s1.market.market_id
      ∧ minute_floor s1.timestamp ≤ r.timestamp)) :
    persist_signals db [s1, s2]
      = db ++ [⟨s1.market.market_id, s1.timestamp, s1.edge⟩]
  ∧ ∀ (db2 : List SignalRow) (s : TradingSignal),
      db2.Pairwise (fun a b => ¬ same_key a b) →
      (insert_signal_dedup db2 s).Pairwise (fun a b => ¬ same_key a b) := by
  constructor
  · have hfil : [s1, s2].filter (fun s => decide (|s.edge| > 0)) = [s1, s2] := by
      simp [List.filter, he1, he2]
    have hanyf : ¬ (db.any (fun r =>
        decide (r.market_ticker = s1.market.market_id)
          && decide (minute_floor s1.timestamp ≤ r.timestamp)) = true) := by
      rw [List.any_eq_true]
      push_neg
      intro r hr
      simp only [ne_eq, Bool.and_eq_true, decide_eq_true_eq]
      exact fun hc => hfree r hr hc
    have hins1 : insert_signal_dedup db s1
        = db ++ [⟨s1.market.market_id, s1.timestamp, s1.edge⟩] := by
      rw [insert_signal_dedup, if_neg hanyf]
    have hanyt : (((db ++ [⟨s1.market.market_id, s1.timestamp, s1.edge⟩] :
          List SignalRow)).any
        (fun r => decide (r.market_ticker = s2.market.market_id)
          && decide (minute_floor s2.timestamp ≤ r.timestamp)) = true) := by
      rw [List.any_eq_true]
      refine ⟨⟨s1.market.market_id, s1.timestamp, s1.edge⟩,
        List.mem_append_right db (List.mem_singleton.mpr rfl), ?_⟩
      simp only [Bool.and_eq_true, decide_eq_true_eq]
      exact ⟨hmkt, by rw [← hmin]; exact minute_floor_le s1.timestamp⟩
    have hins2 : insert_signal_dedup
        (db ++ [⟨s1.market.market_id, s1.timestamp, s1.edge⟩]) s2
        = db ++ [⟨s1.market.market_id, s1.timestamp, s1.edge⟩] := by
      rw [insert_signal_dedup, if_pos hanyt]
    rw [persist_signals, hfil, List.foldl_cons, List.foldl_cons,
      List.foldl_nil, hins1, hins2]
  · intro db2 s hpw
    rw [insert_signal_dedup]
    by_cases hany : db2.any (fun r =>
        decide (r.market_ticker = s.market.market_id)
          && decide (minute_floor s.timestamp ≤ r.timestamp)) = true
    · rw [if_pos hany]; exact hpw
    · rw [if_neg hany]
      rw [List.pairwise_append]
      refine ⟨hpw, List.pairwise_singleton _ _, ?_⟩
      intro a ha b hb
      rw [List.mem_singleton] at hb
      subst hb
      rw [List.any_eq_true] at hany
      push_neg at hany
      have hna := hany a ha
      simp only [ne_eq, Bool.and_eq_true, decide_eq_true_eq] at hna
      intro hk
      rcases hk with ⟨hk1, hk2⟩
      exact hna ⟨hk1, by
        rw [← hk2]
        exact minute_floor_le a.timestamp⟩

/-- Concrete instance of c8_signal_dedup: two same-minute signals for the
fair market produce exactly one stored row from the empty store. -/
theorem c8_signal_dedup_witness :
    persist_signals []
      [⟨mk0, 55/100, 1/2, 5/100, "up", 1/2, 0, 10, 1760000000⟩,
       ⟨mk0, 54/100, 1/2, 4/100, "up", 1/2, 0, 10, 1760000030⟩]
      = [⟨mk0.market_id, 1760000000, 5/100⟩] :=
  (c8_signal_dedup []
    ⟨mk0, 55/100, 1/2, 5/100, "up", 1/2, 0, 10, 1760000000⟩
    ⟨mk0, 54/100, 1/2, 4/100, "up", 1/2, 0, 10, 1760000030⟩
    rfl
    (by norm_num [minute_floor])
    (by norm_num) (by norm_num)
    (by simp)).1

lemma toDigitsCore_eq_natDigitsChars (f : ℕ) :
    ∀ (n : ℕ) (l : List Char), n < f →
      Nat.toDigitsCore 10 f n l = natDigitsChars n ++ l := by
  induction f with
  | zero => intro n l h; omega
  | succ f ih =>
    intro n l h
    rw [Nat.toDigitsCore]
    by_cases h10 : n / 10 = 0
    · rw [if_pos h10]
      have hn : n < 10 := by omega
      rw [natDigitsChars, dif_pos hn, Nat.mod_eq_of_lt hn]
      rfl
    · rw [if_neg h10]
      have hge : 10 ≤ n := by omega
      have hlt : n / 10 < f := by omega
      rw [ih (n / 10) _ hlt]
      conv_rhs => rw [natDigitsChars]
      rw [dif_neg (by omega : ¬ n < 10)]
      simp

lemma repr_eq_natDigitsChars (n : ℕ) :
    Nat.repr n = (natDigitsChars n).asString := by
  rw [Nat.repr, Nat.toDigits,
    toDigitsCore_eq_natDigitsChars (n+1) n [] (Nat.lt_succ_self n)]
  rw [List.append_nil]

lemma natDigitsChars_len :
    ∀ (k n : ℕ), 10^k ≤ n → n < 10^(k+1) →
      (natDigitsChars n).length = k + 1 := by
  intro k
  induction k with
  | zero =>
    intro n h1 h2
    rw [natDigitsChars, dif_pos (by omega : n < 10)]
    rfl
  | succ k ih =>
    intro n h1 h2
    have hten : (10:ℕ) ≤ 10^(k+1) := by
      calc (10:ℕ) = 10^1 := by norm_num
      _ ≤ 10^(k+1) := Nat.pow_le_pow_right (by omega) (by omega)
    have h10 : ¬ n < 10 := by omega
    rw [natDigitsChars, dif_neg h10, List.length_append]
    have hdiv1 : 10^k ≤ n / 10 := by
      rw [Nat.le_div_iff_mul_le (by omega)]
      calc 10^k * 10 = 10^(k+1) := by ring
      _ ≤ n := h1
    have hdiv2 : n / 10 < 10^(k+1) := by
      rw [Nat.div_lt_iff_lt_mul (by omega)]
      calc n < 10^(k+1+1) := h2
      _ = 10^(k+1) * 10 := by ring
    rw [ih (n / 10) hdiv1 hdiv2]
    simp

lemma digitChar_isDigit : ∀ m : ℕ, m < 10 → (Nat.digitChar m).isDigit = true := by
  decide

lemma natDigitsChars_digits (n : ℕ) :
    ∀ c ∈ natDigitsChars n, c.isDigit = true := by
  induction n using Nat.strong_induction_on with
  | _ n ih =>
    intro c hc
    by_cases h : n < 10
    · rw [natDigitsChars, dif_pos h] at hc
      rw [List.mem_singleton] at hc
      rw [hc]
      exact digitChar_isDigit n h
    · rw [natDigitsChars, dif_neg h] at hc
      rw [List.mem_append] at hc
      rcases hc with hc | hc
      · exact ih (n / 10) (Nat.div_lt_self (by omega) (by omega)) c hc
      · rw [List.mem_singleton] at hc
        rw [hc]
        exact digitChar_isDigit _ (Nat.mod_lt n (by omega))

lemma is_valid_append_repr (e : ℕ) (h1 : 10^9 ≤ e) (h2 : e < 10^10) :
    is_valid_btc_slug ("btc-updown-5m-" ++ Nat.repr e) = true := by
  rw [is_valid_btc_slug, String.data_append, repr_eq_natDigitsChars]
  have hdata : (natDigitsChars e).asString.data = natDigitsChars e := rfl
  rw [hdata, matches_btc_slug]
  have hplen : ("btc-updown-5m-".data).length = 14 := by decide
  have htake : ("btc-updown-5m-".data ++ natDigitsChars e).take 14
      = "btc-updown-5m-".data := List.take_left' hplen
  have hdrop : ("btc-updown-5m-".data ++ natDigitsChars e).drop 14
      = natDigitsChars e := List.drop_left' hplen
  rw [htake, hdrop]
  have hlen : (natDigitsChars e).length = 10 := natDigitsChars_len 9 e h1 h2
  simp [hlen, List.all_eq_true]
  exact natDigitsChars_digits e

lemma series_search_fold_sound (found : List BtcMarket) :
    ∀ (acc : List String × List BtcMarket) (m : BtcMarket),
      m ∈ (series_search_fold acc found).2 →
      m ∈ acc.2 ∨ is_valid_btc_slug m.slug = true := by
  induction found with
  | nil => intro acc m hm; exact Or.inl hm
  | cons f fs ih =>
    intro acc m hm
    rw [series_search_fold, List.foldl_cons] at hm
    by_cases hcond : (!acc.1.contains f.slug && is_valid_btc_slug f.slug) = true
    · rw [if_pos hcond] at hm
      rcases ih (f.slug :: acc.1, acc.2 ++ [f]) m hm with hin | hv
      · rw [List.mem_append] at hin
        rcases hin with hin | hin
        · exact Or.inl hin
        · rw [List.mem_singleton] at hin
          subst hin
          rw [Bool.and_eq_true] at hcond
          exact Or.inr hcond.2
      · exact Or.inr hv
    · rw [if_neg hcond] at hm
      exact ih acc m hm

set_option maxRecDepth 10000 in
/-- C6 as stated is false on the code: at wall-clock time 0 the
enumerator emits btc-updown-5m-300, whose numeric part has three digits
rather than ten, so the emitted slug does not match the anchored
pattern. -/
theorem c6_slug_counterexample :
    "btc-updown-5m-300" ∈ compute_window_slugs 6 0
  ∧ is_valid_btc_slug "btc-updown-5m-300" = false := by
  constructor
  · decide
  · decide

/-- C6 amended: the enumerator emits exactly the six slugs
btc-updown-5m-(boundary + 300(i+1)) for i in 0..5 with boundary =
floor(now/300)*300; every enumerated end timestamp is a multiple of 300;
the emitted slug matches the anchored pattern whenever its end timestamp
has ten decimal digits (between 10^9 and 10^10, the years 2001 to 2286);
an invalid slug is never fetched; and every market the series search
adds has a valid slug. -/
theorem c6_window_enumeration (now : ℕ) (seen : List String)
    (ms0 found : List BtcMarket) (bySlug : String → Option BtcMarket) :
    compute_window_slugs 6 now
      = (List.range 6).map
          (fun i => "btc-updown-5m-"
            ++ toString (round_to_5min now + 300 * (i+1)))
  ∧ (∀ e ∈ window_ends 6 now, e % 300 = 0)
  ∧ (∀ e ∈ window_ends 6 now, 10^9 ≤ e → e < 10^10 →
      is_valid_btc_slug ("btc-updown-5m-" ++ toString e) = true)
  ∧ (∀ slug, is_valid_btc_slug slug = false →
      fetch_btc_market_by_slug bySlug slug = none)
  ∧ (∀ m ∈ (series_search_fold (seen, ms0) found).2,
      m ∈ ms0 ∨ is_valid_btc_slug m.slug = true) := by
  refine ⟨?_, ?_, ?_, ?_, ?_⟩
  · simp only [compute_window_slugs]
    apply List.map_congr_left
    intro i _
    have h : round_to_5min now + 300 + i * 300
        = round_to_5min now + 300 * (i+1) := by ring
    rw [h]
  · intro e he
    simp only [window_ends, List.mem_map, List.mem_range] at he
    obtain ⟨i, _, rfl⟩ := he
    rw [round_to_5min]
    omega
  · intro e he h1 h2
    have ht : toString e = Nat.repr e := rfl
    rw [ht]
    exact is_valid_append_repr e h1 h2
  · intro slug h
    rw [fetch_btc_market_by_slug, if_neg]
    rw [h]
    simp
  · exact series_search_fold_sound found (seen, ms0)

/-- Concrete instance of c6_window_enumeration: at clock 1760000000 the
first enumerated window ends at 1760000100, a ten-digit timestamp, and
its slug matches the pattern. -/
theorem c6_window_enumeration_witness :
    is_valid_btc_slug ("btc-updown-5m-" ++ toString 1760000100) = true :=
  (c6_window_enumeration 1760000000 [] [] [] (fun _ => none)).2.2.1
    1760000100 (by decide) (by norm_num) (by norm_num)

end TradingBot
